import Mathlib

/-!
Verification development for the perception-and-memory core of dqn.cpp
(pixel preprocessing, replay memory, minibatch assembly, action selection).

Modelling conventions:
* C++ 'double' arithmetic is embedded as exact rational arithmetic (ℚ).
  The numeric literals .92, 0.21, 0.72, 0.07 are embedded as the rationals
  92/100, 21/100, 72/100, 7/100 that they denote in the source text.
* 'static_cast<int>' of a nonnegative floating value is truncation toward
  zero, embedded as Int.floor (the arguments are nonnegative wherever the
  source applies it).
* Conversion of a double to uint8_t truncates toward zero; it is undefined
  behaviour outside [0,256), embedded totally as floor, toNat, mod 256.
* The raw screen pixel array is embedded as a function from linear index
  (an ℤ, since the source indexes with int arithmetic) to palette code.
-/

namespace dqn

/-- Modelled from the spec: constant kCroppedFrameSize (the frame edge
length S, e.g. 84), declared in dqn.hpp which is not part of src/. -/
def kCroppedFrameSize : ℕ := 84

/-- Modelled from the spec: constant kCroppedFrameDataSize (S·S values per
frame), declared in dqn.hpp which is not part of src/. -/
def kCroppedFrameDataSize : ℕ := kCroppedFrameSize * kCroppedFrameSize

/-- The NTSC palette table ntsc_to_rgb of PixelToRGB: 256 entries, each an
RGB triple packed as 0xRRGGBB; odd palette codes map to 0. -/
def ntsc_to_rgb : List ℕ :=
  [0x000000, 0, 0x4a4a4a, 0, 0x6f6f6f, 0, 0x8e8e8e, 0,
   0xaaaaaa, 0, 0xc0c0c0, 0, 0xd6d6d6, 0, 0xececec, 0,
   0x484800, 0, 0x69690f, 0, 0x86861d, 0, 0xa2a22a, 0,
   0xbbbb35, 0, 0xd2d240, 0, 0xe8e84a, 0, 0xfcfc54, 0,
   0x7c2c00, 0, 0x904811, 0, 0xa26221, 0, 0xb47a30, 0,
   0xc3903d, 0, 0xd2a44a, 0, 0xdfb755, 0, 0xecc860, 0,
   0x901c00, 0, 0xa33915, 0, 0xb55328, 0, 0xc66c3a, 0,
   0xd5824a, 0, 0xe39759, 0, 0xf0aa67, 0, 0xfcbc74, 0,
   0x940000, 0, 0xa71a1a, 0, 0xb83232, 0, 0xc84848, 0,
   0xd65c5c, 0, 0xe46f6f, 0, 0xf08080, 0, 0xfc9090, 0,
   0x840064, 0, 0x97197a, 0, 0xa8308f, 0, 0xb846a2, 0,
   0xc659b3, 0, 0xd46cc3, 0, 0xe07cd2, 0, 0xec8ce0, 0,
   0x500084, 0, 0x68199a, 0, 0x7d30ad, 0, 0x9246c0, 0,
   0xa459d0, 0, 0xb56ce0, 0, 0xc57cee, 0, 0xd48cfc, 0,
   0x140090, 0, 0x331aa3, 0, 0x4e32b5, 0, 0x6848c6, 0,
   0x7f5cd5, 0, 0x956fe3, 0, 0xa980f0, 0, 0xbc90fc, 0,
   0x000094, 0, 0x181aa7, 0, 0x2d32b8, 0, 0x4248c8, 0,
   0x545cd6, 0, 0x656fe4, 0, 0x7580f0, 0, 0x8490fc, 0,
   0x001c88, 0, 0x183b9d, 0, 0x2d57b0, 0, 0x4272c2, 0,
   0x548ad2, 0, 0x65a0e1, 0, 0x75b5ef, 0, 0x84c8fc, 0,
   0x003064, 0, 0x185080, 0, 0x2d6d98, 0, 0x4288b0, 0,
   0x54a0c5, 0, 0x65b7d9, 0, 0x75cceb, 0, 0x84e0fc, 0,
   0x004030, 0, 0x18624e, 0, 0x2d8169, 0, 0x429e82, 0,
   0x54b899, 0, 0x65d1ae, 0, 0x75e7c2, 0, 0x84fcd4, 0,
   0x004400, 0, 0x1a661a, 0, 0x328432, 0, 0x48a048, 0,
   0x5cba5c, 0, 0x6fd26f, 0, 0x80e880, 0, 0x90fc90, 0,
   0x143c00, 0, 0x355f18, 0, 0x527e2d, 0, 0x6e9c42, 0,
   0x87b754, 0, 0x9ed065, 0, 0xb4e775, 0, 0xc8fc84, 0,
   0x303800, 0, 0x505916, 0, 0x6d762b, 0, 0x88923e, 0,
   0xa0ab4f, 0, 0xb7c25f, 0, 0xccd86e, 0, 0xe0ec7c, 0,
   0x482c00, 0, 0x694d14, 0, 0x866a26, 0, 0xa28638, 0,
   0xbb9f47, 0, 0xd2b656, 0, 0xe8cc63, 0, 0xfce070, 0]

/-- PixelToRGB: look up the palette code and unpack the RGB components
(rgb >> 16, (rgb >> 8) & 0xFF, rgb & 0xFF). -/
def PixelToRGB (pixel : ℕ) : ℕ × ℕ × ℕ :=
  let rgb := ntsc_to_rgb.getD pixel 0
  (rgb / 65536, rgb / 256 % 256, rgb % 256)

/-- RGBToGrayscale: normalized luminosity weighting
rgb[0]*0.21 + rgb[1]*0.72 + rgb[2]*0.07, computed in double and converted
to uint8_t by truncation (the operands are in [0,255], so the result is in
range and truncation is floor). -/
def RGBToGrayscale (rgb : ℕ × ℕ × ℕ) : ℕ :=
  (⌊(rgb.1 : ℚ) * (21 / 100) + (rgb.2.1 : ℚ) * (72 / 100) +
    (rgb.2.2 : ℚ) * (7 / 100)⌋).toNat

/-- PixelToGrayscale: grayscale of the palette entry of a pixel code. -/
def PixelToGrayscale (pixel : ℕ) : ℕ :=
  RGBToGrayscale (PixelToRGB pixel)

/-- The raw screen of PreprocessScreen: width, height, and the pixel array
of palette codes, indexed by the int-valued linear index the source uses. -/
structure ALEScreen where
  width : ℕ
  height : ℕ
  pixels : ℤ → ℕ

/-- Conversion of a nonnegative double to uint8_t: truncation toward zero,
stored into 8 bits (undefined behaviour outside [0,256); total here). -/
def toUInt8OfRat (q : ℚ) : ℕ :=
  (⌊q⌋).toNat % 256

/-- The cropped screen height: static_cast<int>(.92 * raw_screen_height). -/
def croppedScreenHeight (H : ℕ) : ℕ :=
  92 * H / 100

/-- The vertical crop offset:
static_cast<int>((raw_screen_height - cropped_screen_height) / 2.0f). -/
def startY (H : ℕ) : ℕ :=
  (H - croppedScreenHeight H) / 2

/-- The horizontal crop offset start_x = 8 (leftmost 8 columns ignored). -/
def startX : ℕ := 8

/-- The cropped screen width: raw_screen_width - start_x (int arithmetic,
may be negative for degenerate raw widths). -/
def croppedScreenWidth (W : ℕ) : ℤ :=
  (W : ℤ) - (startX : ℤ)

/-- The horizontal resample ratio x_ratio = cropped_screen_width / 84. -/
def ratioX (W : ℕ) : ℚ :=
  (croppedScreenWidth W : ℚ) / (kCroppedFrameSize : ℚ)

/-- The vertical resample ratio y_ratio = cropped_screen_height / 84. -/
def ratioY (H : ℕ) : ℚ :=
  (croppedScreenHeight H : ℚ) / (kCroppedFrameSize : ℚ)

/-- first_x = start_x + floor(j * x_ratio). -/
def firstX (W j : ℕ) : ℤ :=
  (startX : ℤ) + ⌊(j : ℚ) * ratioX W⌋

/-- last_x = start_x + floor((j + 1) * x_ratio). -/
def lastX (W j : ℕ) : ℤ :=
  (startX : ℤ) + ⌊((j : ℚ) + 1) * ratioX W⌋

/-- first_y = start_y + floor(i * y_ratio). -/
def firstY (H i : ℕ) : ℤ :=
  (startY H : ℤ) + ⌊(i : ℚ) * ratioY H⌋

/-- last_y = start_y + floor((i + 1) * y_ratio). -/
def lastY (H i : ℕ) : ℤ :=
  (startY H : ℤ) + ⌊((i : ℚ) + 1) * ratioY H⌋

/-- x_ratio_in_resulting_pixel: 1.0 for an interior pixel,
x + 1 - j*x_ratio - start_x for the first x pixel (checked first), and
x_ratio*(j+1) - x + start_x for the last x pixel. -/
def xWeight (W j : ℕ) (x : ℤ) : ℚ :=
  if x = firstX W j then (x : ℚ) + 1 - (j : ℚ) * ratioX W - (startX : ℚ)
  else if x = lastX W j then ratioX W * ((j : ℚ) + 1) - (x : ℚ) + (startX : ℚ)
  else 1

/-- y_ratio_in_resulting_pixel: 1.0 for an interior pixel,
y + 1 - i*y_ratio - start_y for the first y pixel (checked first), and
y_ratio*(i+1) - y + start_y for the last y pixel. -/
def yWeight (H i : ℕ) (y : ℤ) : ℚ :=
  if y = firstY H i then (y : ℚ) + 1 - (i : ℚ) * ratioY H - (startY H : ℚ)
  else if y = lastY H i then ratioY H * ((i : ℚ) + 1) - (y : ℚ) + (startY H : ℚ)
  else 1

/-- The n consecutive integers starting at a. -/
def intRangeAux (a : ℤ) : ℕ → List ℤ
  | 0 => []
  | n + 1 => a :: intRangeAux (a + 1) n

/-- The integers visited by a C++ loop for (v = a; v <= b; ++v), in order;
empty when b < a. -/
def intRange (a b : ℤ) : List ℤ :=
  intRangeAux a (b - a + 1).toNat

/-- The linear pixel index the source reads:
raw_pixels[static_cast<int>(y * raw_screen_width + x)]. -/
def pixelIndex (W : ℕ) (x y : ℤ) : ℤ :=
  y * (W : ℤ) + x

/-- One source pixel's contribution to output cell (i,j):
(x_ratio_in_resulting_pixel / x_ratio) * (y_ratio_in_resulting_pixel /
y_ratio) * grayscale. -/
def cellContrib (scr : ALEScreen) (i j : ℕ) (x y : ℤ) : ℚ :=
  xWeight scr.width j x / ratioX scr.width *
    (yWeight scr.height i y / ratioY scr.height) *
    (PixelToGrayscale (scr.pixels (pixelIndex scr.width x y)) : ℚ)

/-- The value PreprocessScreen stores into output cell (i,j): the loops of
lines 99-124 accumulate into the uint8_t resulting_color, so the running
sum is converted back to uint8_t (truncated) after every single pixel
contribution. -/
def cellValue (scr : ALEScreen) (i j : ℕ) : ℕ :=
  (intRange (firstX scr.width j) (lastX scr.width j)).foldl
    (fun acc x =>
      (intRange (firstY scr.height i) (lastY scr.height i)).foldl
        (fun acc2 y => toUInt8OfRat ((acc2 : ℚ) + cellContrib scr i j x y))
        acc)
    0

/-- Modelled from the spec (for comparison with cellValue): the final cell
value as the real-valued sum of all covered pixel contributions, truncated
to an integer only once at the end. -/
def cellValueSpecOnce (scr : ALEScreen) (i j : ℕ) : ℕ :=
  toUInt8OfRat
    (((intRange (firstX scr.width j) (lastX scr.width j)).map (fun x =>
      ((intRange (firstY scr.height i) (lastY scr.height i)).map (fun y =>
        cellContrib scr i j x y)).sum)).sum)

/-- The sum of (x_weight/x_ratio)*(y_weight/y_ratio) over exactly the
source pixels the inner loops of PreprocessScreen visit for cell (i,j). -/
def weightSum (W H i j : ℕ) : ℚ :=
  ((intRange (firstX W j) (lastX W j)).map (fun x =>
    ((intRange (firstY H i) (lastY H i)).map (fun y =>
      xWeight W j x / ratioX W * (yWeight H i y / ratioY H))).sum)).sum

/-- The inner loops of PreprocessScreen visit source pixel (x,y) while
computing output cell (i,j). -/
def visits (W H i j : ℕ) (x y : ℤ) : Prop :=
  firstX W j ≤ x ∧ x ≤ lastX W j ∧ firstY H i ≤ y ∧ y ≤ lastY H i

instance (W H i j : ℕ) (x y : ℤ) : Decidable (visits W H i j x y) := by
  unfold visits
  infer_instance

/-- PreprocessScreen: the 84x84 output frame, as a function of the linear
output index i * kCroppedFrameSize + j. -/
def PreprocessScreen (scr : ALEScreen) : ℕ → ℕ :=
  fun k => cellValue scr (k / kCroppedFrameSize) (k % kCroppedFrameSize)

/-- A raw screen all of whose pixels hold one palette code. -/
def uniformScreen (W H p : ℕ) : ALEScreen :=
  ⟨W, H, fun _ => p⟩

/-- A transition of the replay memory:
std::tuple of input frames, action, reward, optional next frame. A frame
is embedded as a function from flat index to its uint8 value. -/
structure Transition where
  state : List (ℕ → ℕ)
  action : ℕ
  reward : ℚ
  next : Option (ℕ → ℕ)

/-- DQN::AddTransition: if the replay memory is at capacity, pop the front
(oldest) entry, then push the new transition at the back. The memory is
embedded as a list whose head is the oldest entry. -/
def AddTransition (capacity : ℕ) (mem : List Transition) (t : Transition) :
    List Transition :=
  if mem.length = capacity then mem.tail ++ [t] else mem ++ [t]

/-- Push a whole sequence of transitions in order via AddTransition. -/
def pushAll (capacity : ℕ) (mem : List Transition) (ts : List Transition) :
    List Transition :=
  ts.foldl (AddTransition capacity) mem

/-- Modelled from the spec: the process-wide pseudorandom engine
(std::mt19937 random_engine, declared outside src/), embedded as a stream
of naturals; a draw consumes the head of the stream. -/
def drawNat (g : ℕ → ℕ) : ℕ × (ℕ → ℕ) :=
  (g 0, fun n => g (n + 1))

/-- Modelled from the spec: std::uniform_int_distribution over [lo, hi],
which for lo ≤ hi returns a value in [lo, hi]; embedded as lo plus the
drawn natural reduced mod the range size. -/
def uniformIntDraw (lo hi : ℤ) (g : ℕ → ℕ) : ℤ × (ℕ → ℕ) :=
  (lo + ((drawNat g).1 : ℤ) % (hi - lo + 1), (drawNat g).2)

/-- A range-checked uniform draw: std::uniform_int_distribution requires
lo ≤ hi; calling it with hi < lo is undefined behaviour, embedded as
none. -/
def uniformIntDrawChecked (lo hi : ℤ) (g : ℕ → ℕ) :
    Option (ℤ × (ℕ → ℕ)) :=
  if hi < lo then none else some (uniformIntDraw lo hi g)

/-- The upper distribution bound DQN::Update passes for index sampling:
replay_memory_.size() - 1 (for size 0 the size_t underflow converted to
int yields -1). -/
def sampleUpperBound (memLen : ℕ) : ℤ :=
  (memLen : ℤ) - 1

/-- The index-sampling loop of DQN::Update: draw count indices in
sequence, each from uniform_int_distribution(0, size()-1); there is no
emptiness guard before the loop, so the draws are attempted for any
memory size, and an invalid draw poisons the whole result. -/
def updateSampleIndices (memLen : ℕ) : ℕ → (ℕ → ℕ) → Option (List ℤ)
  | 0, _ => some []
  | count + 1, g =>
    match uniformIntDrawChecked 0 (sampleUpperBound memLen) g with
    | none => none
    | some (v, g1) =>
      match updateSampleIndices memLen count g1 with
      | none => none
      | some l => some (v :: l)

/-- DQN::SelectAction: draw an index uniformly from
[0, legal_actions_.size() - 1] and return that legal action; the frame
stack and epsilon parameters are accepted but unused by the body. -/
def SelectAction (legal : List ℕ) (lastFrames : List (ℕ → ℕ))
    (epsilon : ℚ) (g : ℕ → ℕ) : ℕ × (ℕ → ℕ) :=
  (legal.getD (uniformIntDraw 0 ((legal.length : ℤ) - 1) g).1.toNat 0,
   (uniformIntDraw 0 ((legal.length : ℤ) - 1) g).2)

/-- One row write of the target-assembly loop of DQN::Update: row i of the
flat target buffer is filled with zeros when the transition is terminal
(no next frame), and with the flattened next frame otherwise; positions
outside row i are untouched. -/
def writeTargetRow (buf : ℕ → ℚ) (i : ℕ) (t : Transition) : ℕ → ℚ :=
  fun k =>
    if i * kCroppedFrameDataSize ≤ k ∧ k < (i + 1) * kCroppedFrameDataSize
    then
      match t.next with
      | none => 0
      | some f => (f (k - i * kCroppedFrameDataSize) : ℚ)
    else buf k

/-- The target-assembly loop of DQN::Update, writing consecutive rows
starting at row i0 into the flat buffer. -/
def writeTargetRows (buf : ℕ → ℚ) (i0 : ℕ) : List Transition → (ℕ → ℚ)
  | [] => buf
  | t :: ts => writeTargetRows (writeTargetRow buf i0 t) (i0 + 1) ts

/-- The assembled target buffer of DQN::Update for the list of sampled
transitions, starting from the (uninitialized) buffer buf. -/
def targetInputOf (ts : List Transition) (buf : ℕ → ℚ) : ℕ → ℚ :=
  writeTargetRows buf 0 ts

lemma kCroppedFrameDataSize_eq : kCroppedFrameDataSize = 7056 := by
  norm_num [kCroppedFrameDataSize, kCroppedFrameSize]

/-- C8: the exploration parameter has no effect on DQN::SelectAction: for
one fixed random-engine state and one legal-action set, two calls with any
two epsilon values and any two frame stacks return the same result. -/
theorem selectAction_ignores_epsilon_and_frames
    (legal : List ℕ) (g : ℕ → ℕ) (f1 f2 : List (ℕ → ℕ)) (e1 e2 : ℚ) :
    SelectAction legal f1 e1 g = SelectAction legal f2 e2 g := rfl

/-- C9: for every legal-action set of size at least 1, every frame stack,
every epsilon and every random-engine state, DQN::SelectAction returns an
element of the legal-action set. -/
theorem selectAction_mem (legal : List ℕ) (f : List (ℕ → ℕ)) (e : ℚ)
    (g : ℕ → ℕ) (h : 1 ≤ legal.length) :
    (SelectAction legal f e g).1 ∈ legal := by
  have hL : (0 : ℤ) < (legal.length : ℤ) := by exact_mod_cast h
  have hmod0 : 0 ≤ ((g 0 : ℕ) : ℤ) % (legal.length : ℤ) :=
    Int.emod_nonneg _ (ne_of_gt hL)
  have hmodlt : ((g 0 : ℕ) : ℤ) % (legal.length : ℤ) < (legal.length : ℤ) :=
    Int.emod_lt_of_pos _ hL
  have hrange : ((legal.length : ℤ) - 1 - 0 + 1) = (legal.length : ℤ) := by
    ring
  have hidx :
      ((0 : ℤ) + ((g 0 : ℕ) : ℤ) % ((legal.length : ℤ) - 1 - 0 + 1)).toNat <
        legal.length := by
    rw [hrange]
    omega
  have hmem :
      legal.getD
          ((0 : ℤ) +
            ((g 0 : ℕ) : ℤ) % ((legal.length : ℤ) - 1 - 0 + 1)).toNat 0 ∈
        legal := by
    rw [List.getD_eq_getElem _ _ hidx]
    exact List.getElem_mem hidx
  exact hmem

/-- Witness for C9 at the singleton action set [7]. -/
theorem selectAction_mem_witness :
    1 ≤ ([7] : List ℕ).length ∧
      (SelectAction [7] [] 0 (fun _ => 0)).1 ∈ ([7] : List ℕ) :=
  ⟨by norm_num, selectAction_mem [7] [] 0 (fun _ => 0) (by norm_num)⟩

lemma length_AddTransition (capacity : ℕ) (hcap : 1 ≤ capacity)
    (mem : List Transition) (t : Transition) (h : mem.length ≤ capacity) :
    (AddTransition capacity mem t).length ≤ capacity := by
  unfold AddTransition
  split_ifs with hc
  · simp only [List.length_append, List.length_tail, List.length_cons,
      List.length_nil]
    omega
  · simp only [List.length_append, List.length_cons, List.length_nil]
    omega

lemma length_pushAll (capacity : ℕ) (hcap : 1 ≤ capacity)
    (ts : List Transition) :
    ∀ mem : List Transition, mem.length ≤ capacity →
      (pushAll capacity mem ts).length ≤ capacity := by
  induction ts with
  | nil => intro mem h; exact h
  | cons t ts ih =>
    intro mem h
    exact ih _ (length_AddTransition capacity hcap mem t h)

/-- C3: starting from an empty replay memory, size stays at most the
capacity after every AddTransition; a push at capacity evicts exactly the
single oldest entry before appending (strict FIFO); with capacity 3,
pushing t1..t4 leaves exactly [t2, t3, t4]. -/
theorem replay_memory_fifo (capacity : ℕ) (hcap : 1 ≤ capacity) :
    (∀ ts : List Transition, (pushAll capacity [] ts).length ≤ capacity) ∧
    (∀ (mem : List Transition) (t : Transition), mem.length = capacity →
      AddTransition capacity mem t = mem.tail ++ [t]) ∧
    (∀ t1 t2 t3 t4 : Transition,
      pushAll 3 [] [t1, t2, t3, t4] = [t2, t3, t4]) := by
  refine ⟨?_, ?_, ?_⟩
  · intro ts
    exact length_pushAll capacity hcap ts [] (by simp)
  · intro mem t hmem
    unfold AddTransition
    rw [if_pos hmem]
  · intro t1 t2 t3 t4
    rfl

/-- Witness for C3 at capacity 3 with four concrete transitions. -/
theorem replay_memory_fifo_witness :
    pushAll 3 []
        [⟨[], 1, 0, none⟩, ⟨[], 2, 0, none⟩, ⟨[], 3, 0, none⟩,
          ⟨[], 4, 0, none⟩] =
      [(⟨[], 2, 0, none⟩ : Transition), ⟨[], 3, 0, none⟩, ⟨[], 4, 0, none⟩] :=
  (replay_memory_fifo 3 (by norm_num)).2.2 _ _ _ _

/-- C2 (the code as written): DQN::Update has no emptiness guard; with an
empty replay memory it still reaches the sampling loop, where the
distribution upper bound size()-1 is -1, so every attempted draw violates
the uniform_int_distribution precondition (undefined behaviour, embedded
as none) instead of the update refusing to run. -/
theorem update_empty_memory_invalid_draw (count : ℕ) (g : ℕ → ℕ)
    (hc : 1 ≤ count) :
    sampleUpperBound 0 = -1 ∧ updateSampleIndices 0 count g = none := by
  refine ⟨rfl, ?_⟩
  obtain ⟨c, rfl⟩ : ∃ c, count = c + 1 := ⟨count - 1, by omega⟩
  unfold updateSampleIndices uniformIntDrawChecked sampleUpperBound
  norm_num

/-- Witness for C2 at minibatch size 32 and a concrete engine state. -/
theorem update_empty_memory_invalid_draw_witness :
    (1 : ℕ) ≤ 32 ∧ updateSampleIndices 0 32 (fun _ => 0) = none :=
  ⟨by norm_num,
    (update_empty_memory_invalid_draw 32 (fun _ => 0) (by norm_num)).2⟩

lemma writeTargetRows_untouched (ts : List Transition) :
    ∀ (i0 : ℕ) (buf : ℕ → ℚ) (m : ℕ), m < i0 * kCroppedFrameDataSize →
      writeTargetRows buf i0 ts m = buf m := by
  induction ts with
  | nil => intro i0 buf m _; rfl
  | cons t ts ih =>
    intro i0 buf m hm
    have hD : kCroppedFrameDataSize = 7056 := kCroppedFrameDataSize_eq
    have hm2 : m < (i0 + 1) * kCroppedFrameDataSize := by
      rw [hD] at hm ⊢
      omega
    rw [writeTargetRows, ih (i0 + 1) _ m hm2]
    unfold writeTargetRow
    have hnot :
        ¬ (i0 * kCroppedFrameDataSize ≤ m ∧
            m < (i0 + 1) * kCroppedFrameDataSize) := by
      rw [hD] at hm ⊢
      omega
    rw [if_neg hnot]

lemma writeTargetRows_row (ts : List Transition) :
    ∀ (i0 i : ℕ) (buf : ℕ → ℚ) (t : Transition), ts.get? i = some t →
      ∀ k, k < kCroppedFrameDataSize →
        writeTargetRows buf i0 ts ((i0 + i) * kCroppedFrameDataSize + k) =
          (match t.next with
           | none => 0
           | some f => (f k : ℚ)) := by
  induction ts with
  | nil => intro i0 i buf t ht k hk; simp [List.get?] at ht
  | cons hd tl ih =>
    intro i0 i buf t ht k hk
    have hD : kCroppedFrameDataSize = 7056 := kCroppedFrameDataSize_eq
    cases i with
    | zero =>
      have hhd : hd = t := by simpa [List.get?] using ht
      subst hhd
      rw [writeTargetRows]
      have hlt : (i0 + 0) * kCroppedFrameDataSize + k <
          (i0 + 1) * kCroppedFrameDataSize := by
        rw [hD] at hk ⊢
        omega
      rw [writeTargetRows_untouched tl (i0 + 1) _ _ hlt]
      unfold writeTargetRow
      have hin : i0 * kCroppedFrameDataSize ≤
            (i0 + 0) * kCroppedFrameDataSize + k ∧
          (i0 + 0) * kCroppedFrameDataSize + k <
            (i0 + 1) * kCroppedFrameDataSize := by
        rw [hD] at hk ⊢
        omega
      rw [if_pos hin]
      have hsub : (i0 + 0) * kCroppedFrameDataSize + k -
          i0 * kCroppedFrameDataSize = k := by
        rw [hD]
        omega
      rw [hsub]
    | succ j =>
      have htl : tl.get? j = some t := by simpa [List.get?] using ht
      rw [writeTargetRows]
      have harr : (i0 + (j + 1)) * kCroppedFrameDataSize + k =
          ((i0 + 1) + j) * kCroppedFrameDataSize + k := by
        ring_nf
      rw [harr]
      exact ih (i0 + 1) j _ t htl k hk

/-- C4: for every sampled transition t at row i of the minibatch, the
assembled target row i of DQN::Update is all zeros when t has no next
frame (terminal), and is exactly the flattened values of the next frame
otherwise. -/
theorem update_target_row (ts : List Transition) (buf : ℕ → ℚ) (i : ℕ)
    (t : Transition) (ht : ts.get? i = some t) :
    (t.next = none → ∀ k, k < kCroppedFrameDataSize →
      targetInputOf ts buf (i * kCroppedFrameDataSize + k) = 0) ∧
    (∀ f : ℕ → ℕ, t.next = some f → ∀ k, k < kCroppedFrameDataSize →
      targetInputOf ts buf (i * kCroppedFrameDataSize + k) = (f k : ℚ)) := by
  constructor
  · intro hnone k hk
    have h := writeTargetRows_row ts 0 i buf t ht k hk
    rw [hnone] at h
    simpa [targetInputOf] using h
  · intro f hsome k hk
    have h := writeTargetRows_row ts 0 i buf t ht k hk
    rw [hsome] at h
    simpa [targetInputOf] using h

/-- Witness for C4: a one-row minibatch with a terminal transition
assembles target position 0 to 0 even over a nonzero initial buffer. -/
theorem update_target_row_witness :
    targetInputOf [⟨[], 0, 0, none⟩] (fun _ => 7)
      (0 * kCroppedFrameDataSize + 0) = 0 := by
  have h := (update_target_row [⟨[], 0, 0, none⟩] (fun _ => 7) 0
    ⟨[], 0, 0, none⟩ rfl).1 rfl 0
    (by rw [kCroppedFrameDataSize_eq]; norm_num)
  exact h

lemma weight_first_bounds (A : ℚ) :
    0 ≤ (⌊A⌋ : ℚ) + 1 - A ∧ (⌊A⌋ : ℚ) + 1 - A ≤ 1 :=
  ⟨by have h := Int.lt_floor_add_one A; linarith,
   by have h := Int.floor_le A; linarith⟩

lemma weight_last_bounds (B : ℚ) :
    0 ≤ B - (⌊B⌋ : ℚ) ∧ B - (⌊B⌋ : ℚ) ≤ 1 :=
  ⟨by have h := Int.floor_le B; linarith,
   by have h := Int.lt_floor_add_one B; linarith⟩

lemma xWeight_bounds (W j : ℕ) (x : ℤ) :
    0 ≤ xWeight W j x ∧ xWeight W j x ≤ 1 := by
  unfold xWeight
  split_ifs with h1 h2
  · subst h1
    unfold firstX
    have hb := weight_first_bounds ((j : ℚ) * ratioX W)
    constructor
    · push_cast
      linarith [hb.1]
    · push_cast
      linarith [hb.2]
  · subst h2
    unfold lastX
    have hb := weight_last_bounds (((j : ℚ) + 1) * ratioX W)
    have hc : ratioX W * ((j : ℚ) + 1) = ((j : ℚ) + 1) * ratioX W :=
      mul_comm _ _
    constructor
    · push_cast
      rw [hc]
      linarith [hb.1]
    · push_cast
      rw [hc]
      linarith [hb.2]
  · norm_num

lemma yWeight_bounds (H i : ℕ) (y : ℤ) :
    0 ≤ yWeight H i y ∧ yWeight H i y ≤ 1 := by
  unfold yWeight
  split_ifs with h1 h2
  · subst h1
    unfold firstY
    have hb := weight_first_bounds ((i : ℚ) * ratioY H)
    constructor
    · push_cast
      linarith [hb.1]
    · push_cast
      linarith [hb.2]
  · subst h2
    unfold lastY
    have hb := weight_last_bounds (((i : ℚ) + 1) * ratioY H)
    have hc : ratioY H * ((i : ℚ) + 1) = ((i : ℚ) + 1) * ratioY H :=
      mul_comm _ _
    constructor
    · push_cast
      rw [hc]
      linarith [hb.1]
    · push_cast
      rw [hc]
      linarith [hb.2]
  · norm_num

/-- C6: every fractional resample weight PreprocessScreen computes (the
first-pixel and last-pixel branches as well as the interior 1.0) lies in
[0,1], for every raw screen, output cell and loop position, so the in-loop
assertions on the weights never fire. -/
theorem resample_weights_in_unit_interval (W H i j : ℕ) (x y : ℤ) :
    0 ≤ xWeight W j x ∧ xWeight W j x ≤ 1 ∧
      0 ≤ yWeight H i y ∧ yWeight H i y ≤ 1 :=
  ⟨(xWeight_bounds W j x).1, (xWeight_bounds W j x).2,
   (yWeight_bounds H i y).1, (yWeight_bounds H i y).2⟩

lemma intRange_eq_cons (a b : ℤ) (n : ℕ) (h : (b - a + 1).toNat = n + 1) :
    intRange a b = a :: intRangeAux (a + 1) n := by
  unfold intRange
  rw [h]
  rfl

lemma intRangeAux_eq_intRange (a b : ℤ) (n : ℕ)
    (h : (b - a + 1).toNat = n) : intRangeAux a n = intRange a b := by
  unfold intRange
  rw [h]

lemma sum_map_intRange_mid_one (w : ℤ → ℚ) :
    ∀ (n : ℕ) (a b : ℤ), b = a + ((n : ℤ) + 1) →
      (∀ x, a < x → x < b → w x = 1) →
      ((intRange a b).map w).sum = w a + w b + (n : ℚ) := by
  intro n
  induction n with
  | zero =>
    intro a b hb hmid
    norm_num at hb
    subst hb
    have h2 : (a + 1 - a + 1).toNat = 1 + 1 := by omega
    rw [intRange_eq_cons _ _ 1 h2]
    simp only [intRangeAux, List.map_cons, List.map_nil, List.sum_cons,
      List.sum_nil]
    push_cast
    ring
  | succ m ih =>
    intro a b hb hmid
    have hb2 : b - a = (m : ℤ) + 2 := by
      push_cast at hb
      omega
    have hcons : (b - a + 1).toNat = (m + 2) + 1 := by omega
    rw [intRange_eq_cons _ _ (m + 2) hcons]
    have h2 : (b - (a + 1) + 1).toNat = m + 2 := by omega
    rw [intRangeAux_eq_intRange (a + 1) b (m + 2) h2]
    rw [List.map_cons, List.sum_cons]
    rw [ih (a + 1) b (by omega)
      (fun x hx1 hx2 => hmid x (by omega) hx2)]
    have hw1 : w (a + 1) = 1 := hmid (a + 1) (by omega) (by omega)
    rw [hw1]
    push_cast
    ring

lemma floor_cover_sum (w : ℤ → ℚ) (A r : ℚ) (c : ℤ) (hr : 1 ≤ r)
    (hfirst : w (c + ⌊A⌋) = (⌊A⌋ : ℚ) + 1 - A)
    (hlast : w (c + ⌊A + r⌋) = (A + r) - (⌊A + r⌋ : ℚ))
    (hmid : ∀ x, c + ⌊A⌋ < x → x < c + ⌊A + r⌋ → w x = 1) :
    ((intRange (c + ⌊A⌋) (c + ⌊A + r⌋)).map w).sum = r := by
  have hle : ⌊A⌋ + 1 ≤ ⌊A + r⌋ := by
    have h1 : ⌊A + 1⌋ ≤ ⌊A + r⌋ := Int.floor_le_floor (by linarith)
    rw [Int.floor_add_one] at h1
    exact h1
  have hb : c + ⌊A + r⌋ =
      (c + ⌊A⌋) + (((⌊A + r⌋ - ⌊A⌋ - 1).toNat : ℤ) + 1) := by omega
  rw [sum_map_intRange_mid_one w (⌊A + r⌋ - ⌊A⌋ - 1).toNat _ _ hb hmid]
  rw [hfirst, hlast]
  have hq : ((⌊A + r⌋ - ⌊A⌋ - 1).toNat : ℚ) =
      (⌊A + r⌋ : ℚ) - (⌊A⌋ : ℚ) - 1 := by
    have hz : ((⌊A + r⌋ - ⌊A⌋ - 1).toNat : ℤ) = ⌊A + r⌋ - ⌊A⌋ - 1 := by
      omega
    exact_mod_cast hz
  rw [hq]
  ring

lemma xWeight_at_firstX (W j : ℕ) :
    xWeight W j (firstX W j) =
      (⌊(j : ℚ) * ratioX W⌋ : ℚ) + 1 - (j : ℚ) * ratioX W := by
  unfold xWeight
  rw [if_pos rfl]
  unfold firstX
  push_cast
  ring

lemma firstX_lt_lastX (W j : ℕ) (hr : 1 ≤ ratioX W) :
    firstX W j < lastX W j := by
  unfold firstX lastX
  have h1 : (j : ℚ) * ratioX W + 1 ≤ ((j : ℚ) + 1) * ratioX W := by
    have he : ((j : ℚ) + 1) * ratioX W = (j : ℚ) * ratioX W + ratioX W := by
      ring
    rw [he]
    linarith
  have h2 := Int.floor_le_floor h1
  rw [Int.floor_add_one] at h2
  omega

lemma xWeight_at_lastX (W j : ℕ) (hr : 1 ≤ ratioX W) :
    xWeight W j (lastX W j) =
      ((j : ℚ) + 1) * ratioX W - (⌊((j : ℚ) + 1) * ratioX W⌋ : ℚ) := by
  unfold xWeight
  rw [if_neg (by have h := firstX_lt_lastX W j hr; omega), if_pos rfl]
  unfold lastX
  push_cast
  ring

lemma xWeight_mid (W j : ℕ) (x : ℤ) (h1 : firstX W j < x)
    (h2 : x < lastX W j) : xWeight W j x = 1 := by
  unfold xWeight
  rw [if_neg (by omega), if_neg (by omega)]

lemma xWeight_sum (W j : ℕ) (hr : 1 ≤ ratioX W) :
    ((intRange (firstX W j) (lastX W j)).map (xWeight W j)).sum =
      ratioX W := by
  have hAr : ((j : ℚ) + 1) * ratioX W = (j : ℚ) * ratioX W + ratioX W := by
    ring
  have hlx : lastX W j = (startX : ℤ) + ⌊(j : ℚ) * ratioX W + ratioX W⌋ := by
    unfold lastX
    rw [hAr]
  have hfx : firstX W j = (startX : ℤ) + ⌊(j : ℚ) * ratioX W⌋ := rfl
  rw [hfx, hlx]
  refine floor_cover_sum (xWeight W j) _ _ _ hr ?_ ?_ ?_
  · rw [← hfx]
    exact xWeight_at_firstX W j
  · rw [← hlx, xWeight_at_lastX W j hr, hAr]
  · intro x hx1 hx2
    exact xWeight_mid W j x (by rw [hfx]; exact hx1) (by rw [hlx]; exact hx2)

lemma yWeight_at_firstY (H i : ℕ) :
    yWeight H i (firstY H i) =
      (⌊(i : ℚ) * ratioY H⌋ : ℚ) + 1 - (i : ℚ) * ratioY H := by
  unfold yWeight
  rw [if_pos rfl]
  unfold firstY
  push_cast
  ring

lemma firstY_lt_lastY (H i : ℕ) (hr : 1 ≤ ratioY H) :
    firstY H i < lastY H i := by
  unfold firstY lastY
  have h1 : (i : ℚ) * ratioY H + 1 ≤ ((i : ℚ) + 1) * ratioY H := by
    have he : ((i : ℚ) + 1) * ratioY H = (i : ℚ) * ratioY H + ratioY H := by
      ring
    rw [he]
    linarith
  have h2 := Int.floor_le_floor h1
  rw [Int.floor_add_one] at h2
  omega

lemma yWeight_at_lastY (H i : ℕ) (hr : 1 ≤ ratioY H) :
    yWeight H i (lastY H i) =
      ((i : ℚ) + 1) * ratioY H - (⌊((i : ℚ) + 1) * ratioY H⌋ : ℚ) := by
  unfold yWeight
  rw [if_neg (by have h := firstY_lt_lastY H i hr; omega), if_pos rfl]
  unfold lastY
  push_cast
  ring

lemma yWeight_mid (H i : ℕ) (y : ℤ) (h1 : firstY H i < y)
    (h2 : y < lastY H i) : yWeight H i y = 1 := by
  unfold yWeight
  rw [if_neg (by omega), if_neg (by omega)]

lemma yWeight_sum (H i : ℕ) (hr : 1 ≤ ratioY H) :
    ((intRange (firstY H i) (lastY H i)).map (yWeight H i)).sum =
      ratioY H := by
  have hAr : ((i : ℚ) + 1) * ratioY H = (i : ℚ) * ratioY H + ratioY H := by
    ring
  have hly : lastY H i = (startY H : ℤ) + ⌊(i : ℚ) * ratioY H + ratioY H⌋ := by
    unfold lastY
    rw [hAr]
  have hfy : firstY H i = (startY H : ℤ) + ⌊(i : ℚ) * ratioY H⌋ := rfl
  rw [hfy, hly]
  refine floor_cover_sum (yWeight H i) _ _ _ hr ?_ ?_ ?_
  · rw [← hfy]
    exact yWeight_at_firstY H i
  · rw [← hly, yWeight_at_lastY H i hr, hAr]
  · intro y hy1 hy2
    exact yWeight_mid H i y (by rw [hfy]; exact hy1) (by rw [hly]; exact hy2)

lemma list_sum_factor (l1 l2 : List ℤ) (f gfun : ℤ → ℚ) :
    (l1.map (fun x => (l2.map (fun y => f x * gfun y)).sum)).sum =
      (l1.map f).sum * (l2.map gfun).sum := by
  simp only [List.sum_map_mul_left, List.sum_map_mul_right]

/-- C5 (amended): for every raw screen with H > W whose cropped width and
cropped height are both at least 84, and every output cell (i,j), the sum
of (x_weight/x_ratio)*(y_weight/y_ratio) over all source pixels the inner
loops of PreprocessScreen visit for that cell equals exactly 1. -/
theorem resample_weight_sum_eq_one (W H i j : ℕ) (hWH : W < H)
    (hcw : (84 : ℤ) ≤ croppedScreenWidth W)
    (hch : 84 ≤ croppedScreenHeight H)
    (hi : i < kCroppedFrameSize) (hj : j < kCroppedFrameSize) :
    weightSum W H i j = 1 := by
  have h84 : ((kCroppedFrameSize : ℕ) : ℚ) = 84 := by
    norm_num [kCroppedFrameSize]
  have hrx : 1 ≤ ratioX W := by
    unfold ratioX
    rw [h84, le_div_iff₀ (by norm_num)]
    have hq : (84 : ℚ) ≤ ((croppedScreenWidth W : ℤ) : ℚ) := by
      exact_mod_cast hcw
    linarith
  have hry : 1 ≤ ratioY H := by
    unfold ratioY
    rw [h84, le_div_iff₀ (by norm_num)]
    have hq : (84 : ℚ) ≤ ((croppedScreenHeight H : ℕ) : ℚ) := by
      exact_mod_cast hch
    linarith
  have hrx0 : ratioX W ≠ 0 := by linarith
  have hry0 : ratioY H ≠ 0 := by linarith
  unfold weightSum
  rw [list_sum_factor (intRange (firstX W j) (lastX W j))
    (intRange (firstY H i) (lastY H i))
    (fun x => xWeight W j x / ratioX W)
    (fun y => yWeight H i y / ratioY H)]
  have h1 : ((intRange (firstX W j) (lastX W j)).map
      (fun x => xWeight W j x / ratioX W)).sum = 1 := by
    simp only [div_eq_mul_inv]
    rw [List.sum_map_mul_right, xWeight_sum W j hrx]
    exact mul_inv_cancel₀ hrx0
  have h2 : ((intRange (firstY H i) (lastY H i)).map
      (fun y => yWeight H i y / ratioY H)).sum = 1 := by
    simp only [div_eq_mul_inv]
    rw [List.sum_map_mul_right, yWeight_sum H i hry]
    exact mul_inv_cancel₀ hry0
  rw [h1, h2, mul_one]

/-- Witness for C5 at W=92, H=93, cell (0,0). -/
theorem resample_weight_sum_eq_one_witness : weightSum 92 93 0 0 = 1 :=
  resample_weight_sum_eq_one 92 93 0 0 (by norm_num)
    (by norm_num [croppedScreenWidth, startX])
    (by norm_num [croppedScreenHeight])
    (by norm_num [kCroppedFrameSize])
    (by norm_num [kCroppedFrameSize])

/-- Counterexample to C5 as stated: the raw screen W=20, H=30 satisfies
H > W, yet at output cell (0,0) the visited-weight sum is 196/9, not 1
(the single visited pixel is counted with its first-pixel weight only,
while the cell covers less than one source pixel per axis). -/
theorem resample_weight_sum_cex :
    (20 : ℕ) < 30 ∧ ¬ (weightSum 20 30 0 0 = 1) := by
  refine ⟨by norm_num, ?_⟩
  have hfx : firstX 20 0 = 8 := by
    norm_num [firstX, ratioX, croppedScreenWidth, startX, kCroppedFrameSize]
  have hlx : lastX 20 0 = 8 := by
    norm_num [lastX, ratioX, croppedScreenWidth, startX, kCroppedFrameSize]
  have hfy : firstY 30 0 = 1 := by
    norm_num [firstY, ratioY, croppedScreenHeight, startY, kCroppedFrameSize]
  have hly : lastY 30 0 = 1 := by
    norm_num [lastY, ratioY, croppedScreenHeight, startY, kCroppedFrameSize]
  have hxw : xWeight 20 0 8 = 1 := by
    unfold xWeight
    rw [hfx, if_pos rfl]
    norm_num [ratioX, croppedScreenWidth, startX, kCroppedFrameSize]
  have hyw : yWeight 30 0 1 = 1 := by
    unfold yWeight
    rw [hfy, if_pos rfl]
    norm_num [ratioY, croppedScreenHeight, startY, kCroppedFrameSize]
  unfold weightSum
  rw [hfx, hlx, hfy, hly]
  rw [show intRange 8 8 = [8] from by decide,
    show intRange 1 1 = [1] from by decide]
  simp only [List.map_cons, List.map_nil, List.sum_cons, List.sum_nil]
  rw [hxw, hyw]
  norm_num [ratioX, ratioY, croppedScreenWidth, croppedScreenHeight,
    startX, kCroppedFrameSize]

/-- C10 (amended): for every raw screen with H > W and W at least 8, every
linear pixel index y*W + x that PreprocessScreen reads while computing an
output cell lies within [0, W*H]; the endpoint W*H itself can be reached
at the bottom-right output cell. -/
theorem pixel_index_bounds (W H i j : ℕ) (x y : ℤ) (hWH : W < H)
    (hW : 8 ≤ W) (hi : i < kCroppedFrameSize) (hj : j < kCroppedFrameSize)
    (hv : visits W H i j x y) :
    0 ≤ pixelIndex W x y ∧ pixelIndex W x y ≤ (W : ℤ) * (H : ℤ) := by
  obtain ⟨hx1, hx2, hy1, hy2⟩ := hv
  have h84 : ((kCroppedFrameSize : ℕ) : ℚ) = 84 := by
    norm_num [kCroppedFrameSize]
  have hcw0 : (0 : ℤ) ≤ croppedScreenWidth W := by
    unfold croppedScreenWidth startX
    omega
  have hrx0 : 0 ≤ ratioX W := by
    unfold ratioX
    apply div_nonneg
    · exact_mod_cast hcw0
    · rw [h84]
      norm_num
  have hry0 : 0 ≤ ratioY H := by
    unfold ratioY
    apply div_nonneg
    · exact_mod_cast Nat.zero_le (croppedScreenHeight H)
    · rw [h84]
      norm_num
  have hfx0 : (0 : ℤ) ≤ firstX W j := by
    unfold firstX
    have h0 : (0 : ℤ) ≤ ⌊(j : ℚ) * ratioX W⌋ :=
      Int.floor_nonneg.mpr (mul_nonneg (Nat.cast_nonneg j) hrx0)
    unfold startX
    omega
  have hx0 : (0 : ℤ) ≤ x := le_trans hfx0 hx1
  have hlx : lastX W j ≤ (W : ℤ) := by
    have hj1 : j + 1 ≤ 84 := by
      have hj2 : j < 84 := by simpa [kCroppedFrameSize] using hj
      omega
    have hmono : ⌊((j : ℚ) + 1) * ratioX W⌋ ≤ ⌊(84 : ℚ) * ratioX W⌋ := by
      apply Int.floor_le_floor
      refine mul_le_mul_of_nonneg_right ?_ hrx0
      exact_mod_cast hj1
    have hfl84 : ⌊(84 : ℚ) * ratioX W⌋ = croppedScreenWidth W := by
      have he : (84 : ℚ) * ratioX W = ((croppedScreenWidth W : ℤ) : ℚ) := by
        unfold ratioX
        rw [h84]
        field_simp
      rw [he, Int.floor_intCast]
    unfold lastX startX
    unfold croppedScreenWidth startX at hfl84
    omega
  have hxW : x ≤ (W : ℤ) := le_trans hx2 hlx
  have hfy0 : (0 : ℤ) ≤ firstY H i := by
    unfold firstY
    have h0 : (0 : ℤ) ≤ ⌊(i : ℚ) * ratioY H⌋ :=
      Int.floor_nonneg.mpr (mul_nonneg (Nat.cast_nonneg i) hry0)
    omega
  have hy0 : (0 : ℤ) ≤ y := le_trans hfy0 hy1
  have hly : lastY H i ≤ (H : ℤ) - 1 := by
    have hi1 : i + 1 ≤ 84 := by
      have hi2 : i < 84 := by simpa [kCroppedFrameSize] using hi
      omega
    have hmono : ⌊((i : ℚ) + 1) * ratioY H⌋ ≤ ⌊(84 : ℚ) * ratioY H⌋ := by
      apply Int.floor_le_floor
      refine mul_le_mul_of_nonneg_right ?_ hry0
      exact_mod_cast hi1
    have hfl84 : ⌊(84 : ℚ) * ratioY H⌋ = (croppedScreenHeight H : ℤ) := by
      have he : (84 : ℚ) * ratioY H = ((croppedScreenHeight H : ℕ) : ℚ) := by
        unfold ratioY
        rw [h84]
        field_simp
      rw [he]
      exact_mod_cast Int.floor_natCast (croppedScreenHeight H)
    have hch_lt : croppedScreenHeight H < H := by
      have hH1 : 1 ≤ H := by omega
      unfold croppedScreenHeight
      rw [Nat.div_lt_iff_lt_mul (by norm_num)]
      omega
    have hsy : startY H < H - croppedScreenHeight H := by
      unfold startY
      exact Nat.div_lt_self (by omega) (by norm_num)
    unfold lastY
    omega
  have hyH : y ≤ (H : ℤ) - 1 := le_trans hy2 hly
  constructor
  · exact add_nonneg (mul_nonneg hy0 (Int.natCast_nonneg W)) hx0
  · unfold pixelIndex
    have h1 : y * (W : ℤ) ≤ ((H : ℤ) - 1) * (W : ℤ) :=
      mul_le_mul_of_nonneg_right hyH (Int.natCast_nonneg W)
    have h2 : ((H : ℤ) - 1) * (W : ℤ) + (W : ℤ) = (W : ℤ) * (H : ℤ) := by
      ring
    linarith

/-- Witness for C10 at the Atari geometry W=160, H=210, output cell (0,0),
source pixel (8,8). -/
theorem pixel_index_bounds_witness :
    0 ≤ pixelIndex 160 8 8 ∧ pixelIndex 160 8 8 ≤ (160 : ℤ) * 210 :=
  pixel_index_bounds 160 210 0 0 8 8 (by norm_num) (by norm_num)
    (by norm_num [kCroppedFrameSize]) (by norm_num [kCroppedFrameSize])
    (by
      unfold visits
      refine ⟨?_, ?_, ?_, ?_⟩ <;>
        norm_num [firstX, lastX, firstY, lastY, ratioX, ratioY,
          croppedScreenWidth, croppedScreenHeight, startX, startY,
          kCroppedFrameSize])

/-- Counterexample to C10 as stated: with W=24, H=25 (so H > W) the loops
for output cell (83,83) visit source pixel (24,24), whose linear index is
600 = W*H, which is not inside [0, W*H). -/
theorem pixel_index_cex :
    (24 : ℕ) < 25 ∧ visits 24 25 83 83 24 24 ∧
      ¬ (pixelIndex 24 24 24 < (24 : ℤ) * 25) := by
  refine ⟨by norm_num, ?_, by norm_num [pixelIndex]⟩
  unfold visits
  refine ⟨?_, ?_, ?_, ?_⟩ <;>
    norm_num [firstX, lastX, firstY, lastY, ratioX, ratioY,
      croppedScreenWidth, croppedScreenHeight, startX, startY,
      kCroppedFrameSize]

lemma pixelToGrayscale_14 : PixelToGrayscale 14 = 236 := by
  have h1 : PixelToRGB 14 = (236, 236, 236) := by rfl
  rw [PixelToGrayscale, h1]
  norm_num [RGBToGrayscale]
  decide

/-- C1 (the code as written): at the uniform raw screen W=100, H=101 with
palette code 14 everywhere (grayscale 236), PreprocessScreen stores 233
into output cell (0,0), because the uint8_t accumulator truncates the
running sum after every pixel contribution; the spec's real-valued sum
truncated only once at the end is 236 for the same cell. -/
theorem preprocess_per_step_truncation :
    cellValue (uniformScreen 100 101 14) 0 0 = 233 ∧
      cellValueSpecOnce (uniformScreen 100 101 14) 0 0 = 236 ∧
      PreprocessScreen (uniformScreen 100 101 14) 0 = 233 := by
  have hrx : ratioX 100 = 23 / 21 := by
    norm_num [ratioX, croppedScreenWidth, startX, kCroppedFrameSize]
  have hry : ratioY 101 = 23 / 21 := by
    norm_num [ratioY, croppedScreenHeight, kCroppedFrameSize]
  have hfx : firstX 100 0 = 8 := by
    norm_num [firstX, ratioX, croppedScreenWidth, startX, kCroppedFrameSize]
  have hlx : lastX 100 0 = 9 := by
    norm_num [lastX, ratioX, croppedScreenWidth, startX, kCroppedFrameSize]
  have hfy : firstY 101 0 = 4 := by
    norm_num [firstY, ratioY, croppedScreenHeight, startY, kCroppedFrameSize]
  have hly : lastY 101 0 = 5 := by
    norm_num [lastY, ratioY, croppedScreenHeight, startY, kCroppedFrameSize]
  have hx8 : xWeight 100 0 8 = 1 := by
    unfold xWeight
    rw [hfx, if_pos rfl]
    norm_num [hrx, startX]
  have hx9 : xWeight 100 0 9 = 2 / 21 := by
    unfold xWeight
    rw [hfx, hlx]
    norm_num [hrx, startX]
  have hy4 : yWeight 101 0 4 = 1 := by
    unfold yWeight
    rw [hfy, if_pos rfl]
    norm_num [hry, startY, croppedScreenHeight]
  have hy5 : yWeight 101 0 5 = 2 / 21 := by
    unfold yWeight
    rw [hfy, hly]
    norm_num [hry, startY, croppedScreenHeight]
  have hc84 : cellContrib (uniformScreen 100 101 14) 0 0 8 4 =
      104076 / 529 := by
    show xWeight 100 0 8 / ratioX 100 * (yWeight 101 0 4 / ratioY 101) *
      (PixelToGrayscale 14 : ℚ) = 104076 / 529
    rw [hx8, hy4, hrx, hry, pixelToGrayscale_14]
    norm_num
  have hc85 : cellContrib (uniformScreen 100 101 14) 0 0 8 5 =
      9912 / 529 := by
    show xWeight 100 0 8 / ratioX 100 * (yWeight 101 0 5 / ratioY 101) *
      (PixelToGrayscale 14 : ℚ) = 9912 / 529
    rw [hx8, hy5, hrx, hry, pixelToGrayscale_14]
    norm_num
  have hc94 : cellContrib (uniformScreen 100 101 14) 0 0 9 4 =
      9912 / 529 := by
    show xWeight 100 0 9 / ratioX 100 * (yWeight 101 0 4 / ratioY 101) *
      (PixelToGrayscale 14 : ℚ) = 9912 / 529
    rw [hx9, hy4, hrx, hry, pixelToGrayscale_14]
    norm_num
  have hc95 : cellContrib (uniformScreen 100 101 14) 0 0 9 5 =
      944 / 529 := by
    show xWeight 100 0 9 / ratioX 100 * (yWeight 101 0 5 / ratioY 101) *
      (PixelToGrayscale 14 : ℚ) = 944 / 529
    rw [hx9, hy5, hrx, hry, pixelToGrayscale_14]
    norm_num
  have hcv : cellValue (uniformScreen 100 101 14) 0 0 = 233 := by
    show (intRange (firstX 100 0) (lastX 100 0)).foldl
      (fun acc x => (intRange (firstY 101 0) (lastY 101 0)).foldl
        (fun acc2 y => toUInt8OfRat ((acc2 : ℚ) +
          cellContrib (uniformScreen 100 101 14) 0 0 x y)) acc) 0 = 233
    rw [hfx, hlx, hfy, hly]
    rw [show intRange 8 9 = [8, 9] from by decide,
      show intRange 4 5 = [4, 5] from by decide]
    simp only [List.foldl_cons, List.foldl_nil]
    rw [hc84, hc85, hc94, hc95]
    norm_num [toUInt8OfRat]
    decide
  have hco : cellValueSpecOnce (uniformScreen 100 101 14) 0 0 = 236 := by
    show toUInt8OfRat
      (((intRange (firstX 100 0) (lastX 100 0)).map (fun x =>
        ((intRange (firstY 101 0) (lastY 101 0)).map (fun y =>
          cellContrib (uniformScreen 100 101 14) 0 0 x y)).sum)).sum) = 236
    rw [hfx, hlx, hfy, hly]
    rw [show intRange 8 9 = [8, 9] from by decide,
      show intRange 4 5 = [4, 5] from by decide]
    simp only [List.map_cons, List.map_nil, List.sum_cons, List.sum_nil]
    rw [hc84, hc85, hc94, hc95]
    norm_num [toUInt8OfRat]
    decide
  exact ⟨hcv, hco, hcv⟩

end dqn
